import Mathlib

/-!
Verification of the conversation-orchestration core of mcphost
(src/cmd/root.go and the cmd-package Anthropic client types).

The data model and operations below are shallow embeddings of the Go source:
`ContentBlock`/`MessageParam` mirror the cmd package's wire types,
`pruneMessages` mirrors the Anthropic branch of `pruneMessages` in
src/cmd/root.go, `pruneOllamaMessages` mirrors its Ollama branch,
`runPromptRetry` mirrors the retry/backoff loop of `runPrompt`, and
`dispatchBlocks`/`runPromptStep` mirror the tool-dispatch portion of
`runPrompt`.
-/

namespace Mcphost

/-- Raw JSON bytes held in a block's `Input` field (`json.RawMessage` in the
source), modelled together with the semantics of the external
`json.Unmarshal` into `map[string]interface{}`: `obj fields` stands for bytes
that decode to a JSON object (argument values kept opaque as strings);
`bad raw` stands for any byte sequence that does not decode to an object
(malformed JSON or a non-object value), on which Unmarshal errors. The Go zero
value (nil bytes) is `bad ""`. -/
inductive RawJson where
  | obj (fields : List (String × String))
  | bad (raw : String)
deriving DecidableEq

/-- cmd.ContentBlock: `Type`, `Text`, `ID`, `ToolUseID`, `Name`, `Input`,
`Content`. The `Content` field is declared `interface{}` in the source and in
this program always holds a nested list of blocks (a tool_result's payload),
so it is modelled as `List ContentBlock`. -/
inductive ContentBlock where
  | mk (type : String) (text : String) (id : String) (toolUseID : String)
      (name : String) (input : RawJson) (content : List ContentBlock)

def ContentBlock.type : ContentBlock → String
  | .mk t _ _ _ _ _ _ => t

def ContentBlock.text : ContentBlock → String
  | .mk _ x _ _ _ _ _ => x

def ContentBlock.id : ContentBlock → String
  | .mk _ _ i _ _ _ _ => i

def ContentBlock.toolUseID : ContentBlock → String
  | .mk _ _ _ u _ _ _ => u

def ContentBlock.name : ContentBlock → String
  | .mk _ _ _ _ n _ _ => n

def ContentBlock.input : ContentBlock → RawJson
  | .mk _ _ _ _ _ i _ => i

def ContentBlock.content : ContentBlock → List ContentBlock
  | .mk _ _ _ _ _ _ c => c

/-- cmd.MessageParam: `Role`, `Content`. -/
structure MessageParam where
  role : String
  content : List ContentBlock

/-- A plain text block, as built by the source for prompts and tool results
(all other fields at their Go zero values). -/
def textBlock (s : String) : ContentBlock :=
  .mk "text" s "" "" "" (.bad "") []

/-- A tool_use block as it appears in an assistant response. -/
def toolUseBlock (id toolName : String) (input : RawJson) : ContentBlock :=
  .mk "tool_use" "" id "" toolName input []

/-- A tool_result block referencing a prior tool_use id, carrying nested
content blocks. -/
def toolResultBlock (toolUseID : String) (inner : List ContentBlock) : ContentBlock :=
  .mk "tool_result" "" "" toolUseID "" (.bad "") inner

/-! ## pruneMessages, Anthropic branch (src/cmd/root.go lines 60–117) -/

/-- First pass of the Anthropic branch: the ids of all tool_use blocks in the
retained suffix. The source fills a `map[string]bool`; it is modelled as the
list of collected ids, queried by membership. -/
def toolUseIds (messages : List MessageParam) : List String :=
  messages.flatMap (fun m =>
    m.content.filterMap (fun b =>
      if b.type = "tool_use" then some b.id else none))

/-- First pass of the Anthropic branch: the tool_use ids referenced by
tool_result blocks in the retained suffix. -/
def toolResultIds (messages : List MessageParam) : List String :=
  messages.flatMap (fun m =>
    m.content.filterMap (fun b =>
      if b.type = "tool_result" then some b.toolUseID else none))

/-- Block-retention condition of the second pass: a tool_use survives when
its id is answered by some tool_result in the suffix, a tool_result survives
when its referenced id belongs to some tool_use in the suffix, every other
block survives unconditionally. -/
def keepBlock (useIds resultIds : List String) (b : ContentBlock) : Bool :=
  if b.type = "tool_use" then decide (b.id ∈ resultIds)
  else if b.type = "tool_result" then decide (b.toolUseID ∈ useIds)
  else true

/-- The `hasTextBlock` scan over the message's original content. -/
def hasTextBlock (m : MessageParam) : Bool :=
  m.content.any (fun b => decide (b.type = "text"))

/-- Second pass of the Anthropic branch: per-message block filtering followed
by the two message-keeping conditionals, written exactly as in the source. -/
def filterMessages (useIds resultIds : List String) (messages : List MessageParam) :
    List MessageParam :=
  messages.filterMap (fun m =>
    let prunedBlocks := m.content.filter (keepBlock useIds resultIds)
    if (decide (0 < prunedBlocks.length) && decide (m.role = "assistant"))
        || !(decide (m.role = "assistant")) then
      if decide (0 < prunedBlocks.length) || hasTextBlock m then
        some { m with content := prunedBlocks }
      else none
    else none)

/-- `pruneMessages` instantiated at the Anthropic message type
(src/cmd/root.go lines 60–117); the global `messageWindow` is passed as the
explicit `window` parameter. -/
def pruneMessages (window : Nat) (messages : List MessageParam) : List MessageParam :=
  if messages.length ≤ window then messages
  else
    let recent := messages.drop (messages.length - window)
    filterMessages (toolUseIds recent) (toolResultIds recent) recent

/-- The pairing invariant over a message list: every tool_use block's id is
referenced by some tool_result block's toolUseID in the list, and every
tool_result block's toolUseID matches some tool_use block's id. -/
def PairingInvariant (messages : List MessageParam) : Prop :=
  ∀ m ∈ messages, ∀ b ∈ m.content,
    (b.type = "tool_use" →
      ∃ m2 ∈ messages, ∃ b2 ∈ m2.content,
        b2.type = "tool_result" ∧ b2.toolUseID = b.id) ∧
    (b.type = "tool_result" →
      ∃ m2 ∈ messages, ∃ b2 ∈ m2.content,
        b2.type = "tool_use" ∧ b2.id = b.toolUseID)

instance (messages : List MessageParam) : Decidable (PairingInvariant messages) := by
  unfold PairingInvariant
  infer_instance

/-! ## pruneMessages, Ollama branch (src/cmd/root.go lines 119–153) -/

/-- ollama api.ToolCall, reduced to the fields this program reads: a function
name and opaque arguments. -/
structure OllamaToolCall where
  fnName : String
  arguments : List (String × String)
deriving DecidableEq

/-- ollama api.Message: `Role`, `Content`, `ToolCalls`. -/
structure OllamaMessage where
  role : String
  content : String
  toolCalls : List OllamaToolCall
deriving DecidableEq

/-- The Ollama branch loop of pruneMessages, phrased as structural recursion
over the retained suffix: `prev` is `messages[i-1]` (`none` at the start) and
the head of the remaining list is `messages[i]`, so `messages[i+1]` is the
head of the tail. Both arms of the source's `role == "tool"` case skip the
message, which the inner match reproduces verbatim. -/
def ollamaPruneLoop (prev : Option OllamaMessage) : List OllamaMessage → List OllamaMessage
  | [] => []
  | m :: rest =>
    if 0 < m.toolCalls.length then
      match rest with
      | next :: _ =>
        if next.role = "tool" then m :: next :: ollamaPruneLoop (some m) rest
        else ollamaPruneLoop (some m) rest
      | [] => ollamaPruneLoop (some m) rest
    else if m.role = "tool" then
      match prev with
      | some p =>
        if 0 < p.toolCalls.length then ollamaPruneLoop (some m) rest
        else ollamaPruneLoop (some m) rest
      | none => ollamaPruneLoop (some m) rest
    else m :: ollamaPruneLoop (some m) rest

/-- `pruneMessages` instantiated at the Ollama message type. -/
def pruneOllamaMessages (window : Nat) (messages : List OllamaMessage) : List OllamaMessage :=
  if messages.length ≤ window then messages
  else ollamaPruneLoop none (messages.drop (messages.length - window))

/-- The adjacency rule as the claim words it, per message of the retained
suffix: a message bearing tool calls is kept exactly when the next message
has role "tool", a "tool"-role message is kept exactly when the previous
message bears tool calls (the adjacent-pair rule), and every other message is
kept. -/
def ollamaAdjacentKeep (prev : Option OllamaMessage) (m : OllamaMessage)
    (next : Option OllamaMessage) : Bool :=
  if 0 < m.toolCalls.length then
    match next with
    | some nx => decide (nx.role = "tool")
    | none => false
  else if m.role = "tool" then
    match prev with
    | some p => decide (0 < p.toolCalls.length)
    | none => false
  else true

/-- Whole-message filtering by `ollamaAdjacentKeep` over a list, tracking the
previous message and peeking at the next one. -/
def ollamaAdjacentRule (prev : Option OllamaMessage) : List OllamaMessage → List OllamaMessage
  | [] => []
  | m :: rest =>
    (if ollamaAdjacentKeep prev m rest.head? then [m] else []) ++ ollamaAdjacentRule (some m) rest

/-! ## Retry / backoff loop of runPrompt (src/cmd/root.go lines 31–35, 205–248) -/

def initialBackoffSec : Nat := 1

def maxBackoffSec : Nat := 30

def maxRetries : Nat := 5

/-- The user-facing error produced once the retry budget is exhausted. -/
def overloadedUserError : String :=
  "claude is currently overloaded. please wait a few minutes and try again"

/-- strings.Contains on character lists: does the second list contain the
first as a contiguous run? -/
def charsContain (pat : List Char) : List Char → Bool
  | [] => pat.isEmpty
  | c :: rest => pat.isPrefixOf (c :: rest) || charsContain pat rest

/-- The transient-overload test of runPrompt:
`strings.Contains(err.Error(), "overloaded_error")`. -/
def isOverloadedError (e : String) : Bool :=
  charsContain "overloaded_error".toList e.toList

/-- The retry loop of runPrompt. A provider maps the current retry count
(equal to the number of prior attempts, since every repeated iteration
increments it) to `none` on success or `some e` on an error with message `e`.
Returns the number of CreateMessage attempts, the seconds slept in order, and
the outcome. The fuel argument only bounds the recursion; `runPromptRetry`
supplies `maxRetries + 1`, which the retry counter never lets the loop
exceed, so the fuel-exhausted value is unreachable from it. -/
def retryLoop (provider : Nat → Option String) :
    Nat → Nat → Nat → Nat × List Nat × Except String Unit
  | _, _, 0 => (0, [], .error overloadedUserError)
  | retries, backoff, fuel + 1 =>
    match provider retries with
    | none => (1, [], .ok ())
    | some e =>
      if isOverloadedError e then
        if maxRetries ≤ retries then (1, [], .error overloadedUserError)
        else
          let r := retryLoop provider (retries + 1) (min (backoff * 2) maxBackoffSec) fuel
          (r.1 + 1, backoff :: r.2.1, r.2.2)
      else (1, [], .error e)

/-- The CreateMessage call of runPrompt under its retry policy, with the
source's constants. -/
def runPromptRetry (provider : Nat → Option String) : Nat × List Nat × Except String Unit :=
  retryLoop provider 0 initialBackoffSec (maxRetries + 1)

/-! ## Tool dispatch of runPrompt (src/cmd/root.go lines 254–365) -/

/-- A record of one CallTool invocation actually performed. -/
structure ToolInvocation where
  server : String
  tool : String
  arguments : List (String × String)
deriving DecidableEq

/-- Outcome of one tool call as the source can observe it: `callError` is an
error returned by CallTool (including a timeout), `resultUnmarshalable` a
result whose content json.Marshal rejects, `resultJSON` the marshaled result
content. -/
inductive ToolCallOutcome where
  | callError (e : String)
  | resultUnmarshalable (e : String)
  | resultJSON (s : String)

/-- The tool_result block the source builds when CallTool returns an error:
`{Type: "tool_result", ToolUseID: block.ID, Content: [{Type: "text", Text:
errMsg}]}` with `errMsg = fmt.Sprintf("Error calling tool %s: %v", ...)`. -/
def toolErrorResult (id toolName e : String) : ContentBlock :=
  toolResultBlock id [textBlock ("Error calling tool " ++ toolName ++ ": " ++ e)]

/-- Worker for `goSplit`: scan the text for the separator, emitting the token
accumulated so far whenever the separator occurs at the current position and
then resuming after it. The fuel is an upper bound on the scanned characters;
`goSplit` passes the text's length, which is never exhausted since every step
consumes at least one character. -/
def goSplitAux (sep : List Char) : Nat → List Char → List Char → List (List Char)
  | _, acc, [] => [acc.reverse]
  | 0, acc, s => [acc.reverse ++ s]
  | fuel + 1, acc, c :: rest =>
    if sep.isPrefixOf (c :: rest) then
      acc.reverse :: goSplitAux sep fuel [] (List.drop (sep.length - 1) rest)
    else goSplitAux sep fuel (c :: acc) rest

/-- strings.Split from the Go standard library (for a non-empty separator):
the list of substrings of `s` between consecutive occurrences of `sep`. -/
def goSplit (s sep : String) : List String :=
  (goSplitAux sep.toList s.toList.length [] s.toList).map (fun cs => ⟨cs⟩)

/-- Processing of a single content block of the assistant response: text
blocks only render; a tool_use block has its name split on "__" (a shape
other than exactly two parts is reported and skipped), its server looked up
(an unknown server is reported and skipped), its arguments unmarshaled (a
failure is reported and skipped), and is then invoked; a call error appends
an error tool_result, an unmarshalable result is reported and skipped, and a
success appends the marshaled result as a tool_result. Returns the
invocations performed and the tool results collected. -/
def dispatchBlock (clients : List String)
    (invoke : String → String → List (String × String) → ToolCallOutcome)
    (b : ContentBlock) : List ToolInvocation × List ContentBlock :=
  if b.type = "tool_use" then
    match goSplit b.name "__" with
    | [serverName, toolName] =>
      if serverName ∈ clients then
        match b.input with
        | .obj toolArgs =>
          match invoke serverName toolName toolArgs with
          | .callError e =>
            ([⟨serverName, toolName, toolArgs⟩], [toolErrorResult b.id toolName e])
          | .resultUnmarshalable _ => ([⟨serverName, toolName, toolArgs⟩], [])
          | .resultJSON s =>
            ([⟨serverName, toolName, toolArgs⟩], [toolResultBlock b.id [textBlock s]])
        | .bad _ => ([], [])
      else ([], [])
    | _ => ([], [])
  else ([], [])

/-- The `for _, block := range message.Content` loop: blocks are processed in
order and their invocations and tool results concatenated. -/
def dispatchBlocks (clients : List String)
    (invoke : String → String → List (String × String) → ToolCallOutcome)
    (blocks : List ContentBlock) : List ToolInvocation × List ContentBlock :=
  (blocks.flatMap (fun b => (dispatchBlock clients invoke b).1),
   blocks.flatMap (fun b => (dispatchBlock clients invoke b).2))

/-- One round of runPrompt after CreateMessage returns: dispatch the tool
blocks, append the assistant message, and when any tool results were produced
append them as a user message and recurse with an empty prompt. The Bool
result records whether that recursive call happens. -/
def runPromptStep (clients : List String)
    (invoke : String → String → List (String × String) → ToolCallOutcome)
    (messages : List MessageParam) (assistantContent : List ContentBlock) :
    List MessageParam × Bool :=
  let toolResults := (dispatchBlocks clients invoke assistantContent).2
  let messages2 := messages ++ [⟨"assistant", assistantContent⟩]
  if 0 < toolResults.length then (messages2 ++ [⟨"user", toolResults⟩], true)
  else (messages2, false)

/-! ## Turn start (src/cmd/root.go lines 485–488 and 188–218) -/

/-- The message list passed to the provider on the first CreateMessage call
of a turn: runMCPHost prunes a nonempty history, then runPrompt appends the
user prompt and calls CreateMessage with the result. -/
def turnProviderMessages (window : Nat) (history : List MessageParam) (prompt : String) :
    List MessageParam :=
  let history2 := if 0 < history.length then pruneMessages window history else history
  history2 ++ [⟨"user", [textBlock prompt]⟩]

/-! ## Concrete fixtures -/

def msgUserA : MessageParam := ⟨"user", [textBlock "A"]⟩

def msgAssistantToolUse : MessageParam :=
  ⟨"assistant", [toolUseBlock "1" "srv__tool" (.obj [])]⟩

def msgToolResult : MessageParam := ⟨"user", [toolResultBlock "1" [textBlock "ok"]]⟩

def msgUserB : MessageParam := ⟨"user", [textBlock "B"]⟩

def msgOrphanToolUse : MessageParam := ⟨"assistant", [toolUseBlock "1" "t" (.bad "")]⟩

/-- A tool_use block whose Input bytes do not unmarshal into a JSON object. -/
def badArgsBlock : ContentBlock := toolUseBlock "id1" "srv__tool" (.bad "not json")

/-- A well-formed tool_use block naming server "srv" and tool "tool". -/
def goodToolUseBlock : ContentBlock := toolUseBlock "id1" "srv__tool" (.obj [])

def invokeOk : String → String → List (String × String) → ToolCallOutcome :=
  fun _ _ _ => .resultJSON "[]"

def invokeFail : String → String → List (String × String) → ToolCallOutcome :=
  fun _ _ _ => .callError "boom"

def oMsgUser : OllamaMessage := ⟨"user", "hi", []⟩

def oMsgCaller : OllamaMessage := ⟨"assistant", "", [⟨"f", []⟩]⟩

/-- Exotic: a "tool"-role message that itself bears a tool call. -/
def oMsgToolWithCalls : OllamaMessage := ⟨"tool", "r1", [⟨"g", []⟩]⟩

def oMsgToolPlain : OllamaMessage := ⟨"tool", "r2", []⟩

/-! ## Helper lemmas -/

theorem if_some_eq {p : Prop} [Decidable p] {x y : String} :
    (if p then some x else none) = some y ↔ p ∧ x = y := by
  split_ifs with h <;> simp [h]

theorem mem_toolUseIds_iff {messages : List MessageParam} {i : String} :
    i ∈ toolUseIds messages ↔
      ∃ m ∈ messages, ∃ b ∈ m.content, b.type = "tool_use" ∧ b.id = i := by
  simp [toolUseIds, List.mem_flatMap, List.mem_filterMap, if_some_eq]

theorem mem_toolResultIds_iff {messages : List MessageParam} {i : String} :
    i ∈ toolResultIds messages ↔
      ∃ m ∈ messages, ∃ b ∈ m.content, b.type = "tool_result" ∧ b.toolUseID = i := by
  simp [toolResultIds, List.mem_flatMap, List.mem_filterMap, if_some_eq]

theorem of_mem_filterMessages {useIds resultIds : List String}
    {messages : List MessageParam} {m2 : MessageParam}
    (h : m2 ∈ filterMessages useIds resultIds messages) :
    ∃ m ∈ messages,
      m2 = { m with content := m.content.filter (keepBlock useIds resultIds) } := by
  simp only [filterMessages, List.mem_filterMap] at h
  obtain ⟨m, hm, hf⟩ := h
  refine ⟨m, hm, ?_⟩
  split at hf
  · split at hf
    · exact (Option.some.inj hf).symm
    · exact absurd hf (by simp)
  · exact absurd hf (by simp)

theorem mem_filterMessages_of_keep {useIds resultIds : List String}
    {messages : List MessageParam} {m : MessageParam} (hm : m ∈ messages)
    (hpb : 0 < (m.content.filter (keepBlock useIds resultIds)).length) :
    ({ m with content := m.content.filter (keepBlock useIds resultIds) } : MessageParam)
      ∈ filterMessages useIds resultIds messages := by
  unfold filterMessages
  refine List.mem_filterMap.mpr ⟨m, hm, ?_⟩
  have h1 : decide (0 < (m.content.filter (keepBlock useIds resultIds)).length) = true :=
    decide_eq_true hpb
  simp [h1]

theorem filterMessages_length_le (useIds resultIds : List String)
    (messages : List MessageParam) :
    (filterMessages useIds resultIds messages).length ≤ messages.length :=
  List.length_filterMap_le _ _

theorem pruneMessages_of_le {window : Nat} {messages : List MessageParam}
    (h : messages.length ≤ window) : pruneMessages window messages = messages := by
  unfold pruneMessages
  rw [if_pos h]

theorem pruneOllamaMessages_of_le {window : Nat} {messages : List OllamaMessage}
    (h : messages.length ≤ window) : pruneOllamaMessages window messages = messages := by
  unfold pruneOllamaMessages
  rw [if_pos h]

theorem pruneMessages_length_le (window : Nat) (messages : List MessageParam) :
    (pruneMessages window messages).length ≤ window := by
  unfold pruneMessages
  split
  · assumption
  · refine le_trans (filterMessages_length_le _ _ _) ?_
    rw [List.length_drop]
    omega

/-! ## Claim theorems -/

/-- C1, counterexample to the claim as stated: for a list already within the
window, pruneMessages is the identity, so a pre-existing orphan tool_use
block survives and the returned list violates the pairing invariant. -/
theorem pruneMessages_pairing_cx :
    ¬ PairingInvariant (pruneMessages 10 [msgOrphanToolUse]) := by decide

/-- C1 (amended: restricted to input lists longer than the window, where the
truncation and the orphan filter actually run; a list within the window is
returned unchanged and may retain pre-existing orphans): every surviving
tool_use block's id is referenced by some surviving tool_result block's
tool_use_id, and every surviving tool_result block's tool_use_id matches some
surviving tool_use block's id. -/
theorem pruneMessages_pairing (window : Nat) (messages : List MessageParam)
    (h : window < messages.length) :
    PairingInvariant (pruneMessages window messages) := by
  have hnle : ¬ messages.length ≤ window := by omega
  unfold pruneMessages
  rw [if_neg hnle]
  set recent := messages.drop (messages.length - window) with hrecent
  set U := toolUseIds recent with hU
  set R := toolResultIds recent with hR
  unfold PairingInvariant
  intro m hm b hb
  obtain ⟨m0, hm0, hmeq⟩ := of_mem_filterMessages hm
  subst hmeq
  have hb1 : b ∈ m0.content.filter (keepBlock U R) := hb
  have hb2 := List.mem_filter.mp hb1
  constructor
  · intro htype
    have hk : keepBlock U R b = true := hb2.2
    unfold keepBlock at hk
    rw [if_pos htype] at hk
    have hidR : b.id ∈ R := of_decide_eq_true hk
    obtain ⟨m1, hm1, b3, hb3, hb3t, hb3u⟩ := mem_toolResultIds_iff.mp hidR
    have hbU : b.id ∈ U := mem_toolUseIds_iff.mpr ⟨m0, hm0, b, hb2.1, htype, rfl⟩
    have hkb3 : keepBlock U R b3 = true := by
      unfold keepBlock
      rw [if_neg (by rw [hb3t]; decide), if_pos hb3t]
      exact decide_eq_true (hb3u ▸ hbU)
    have hb3f : b3 ∈ m1.content.filter (keepBlock U R) := List.mem_filter.mpr ⟨hb3, hkb3⟩
    have hpos : 0 < (m1.content.filter (keepBlock U R)).length :=
      List.length_pos.mpr (List.ne_nil_of_mem hb3f)
    exact ⟨_, mem_filterMessages_of_keep hm1 hpos, b3, hb3f, hb3t, hb3u⟩
  · intro htype
    have hk : keepBlock U R b = true := hb2.2
    unfold keepBlock at hk
    rw [if_neg (by rw [htype]; decide), if_pos htype] at hk
    have hidU : b.toolUseID ∈ U := of_decide_eq_true hk
    obtain ⟨m1, hm1, b3, hb3, hb3t, hb3i⟩ := mem_toolUseIds_iff.mp hidU
    have hbR : b.toolUseID ∈ R := mem_toolResultIds_iff.mpr ⟨m0, hm0, b, hb2.1, htype, rfl⟩
    have hkb3 : keepBlock U R b3 = true := by
      unfold keepBlock
      rw [if_pos hb3t]
      exact decide_eq_true (hb3i ▸ hbR)
    have hb3f : b3 ∈ m1.content.filter (keepBlock U R) := List.mem_filter.mpr ⟨hb3, hkb3⟩
    have hpos : 0 < (m1.content.filter (keepBlock U R)).length :=
      List.length_pos.mpr (List.ne_nil_of_mem hb3f)
    exact ⟨_, mem_filterMessages_of_keep hm1 hpos, b3, hb3f, hb3t, hb3i⟩

/-- C1 witness: the amended theorem applied to a concrete 4-message history
pruned to window 3, where a tool_use/tool_result pair survives. -/
theorem pruneMessages_pairing_witness :
    3 < ([msgUserA, msgAssistantToolUse, msgToolResult, msgUserB] : List MessageParam).length ∧
      PairingInvariant
        (pruneMessages 3 [msgUserA, msgAssistantToolUse, msgToolResult, msgUserB]) :=
  ⟨by decide,
    pruneMessages_pairing 3 [msgUserA, msgAssistantToolUse, msgToolResult, msgUserB]
      (by decide)⟩

/-- C2: on the 4-message history [user A, assistant(tool_use id=1),
tool_result(id=1), user B], pruning with window 3 returns the last three
messages with all blocks intact, and pruning with window 2 returns exactly
[user B]: the orphaned tool_result block is dropped and its now-contentless
carrier message with it. -/
theorem pruneMessages_scenario :
    pruneMessages 3 [msgUserA, msgAssistantToolUse, msgToolResult, msgUserB] =
        [msgAssistantToolUse, msgToolResult, msgUserB] ∧
      pruneMessages 2 [msgUserA, msgAssistantToolUse, msgToolResult, msgUserB] =
        [msgUserB] :=
  ⟨rfl, rfl⟩

/-- C5, counterexample to the claim as stated: a non-assistant (user) message
whose only block was removed by the orphan filter is dropped entirely, not
kept — with window 1 the retained suffix is the user message carrying the
orphaned tool_result, and pruning returns the empty list. -/
theorem filterMessages_nonassistant_cx :
    pruneMessages 1 [msgUserA, msgToolResult] = [] ∧ msgToolResult.role = "user" :=
  ⟨rfl, rfl⟩

/-- C5 (amended: after block filtering, a message of any role is kept exactly
when at least one of its blocks survives — an assistant message with no
surviving blocks is dropped entirely, and a non-assistant message whose
blocks were all removed by the orphan filter is dropped as well; the
hasTextBlock test never rescues a message, because text blocks always survive
the block filter). -/
theorem filterMessages_keeps_iff_nonempty (useIds resultIds : List String)
    (messages : List MessageParam) :
    filterMessages useIds resultIds messages =
      messages.filterMap (fun m =>
        let pb := m.content.filter (keepBlock useIds resultIds)
        if 0 < pb.length then some { m with content := pb } else none) := by
  unfold filterMessages
  refine List.filterMap_congr (fun m _ => ?_)
  dsimp only
  by_cases hpb : 0 < (m.content.filter (keepBlock useIds resultIds)).length
  · simp [hpb]
  · have hpb0 : m.content.filter (keepBlock useIds resultIds) = [] := by
      rcases h0 : m.content.filter (keepBlock useIds resultIds) with _ | ⟨x, xs⟩
      · rfl
      · rw [h0] at hpb
        exact absurd (by simp) hpb
    have htext : hasTextBlock m = false := by
      unfold hasTextBlock
      rw [List.any_eq_false]
      intro b hbm
      intro hbt
      have hbt2 : b.type = "text" := of_decide_eq_true hbt
      have hkb : keepBlock useIds resultIds b = true := by
        unfold keepBlock
        rw [if_neg (by rw [hbt2]; decide), if_neg (by rw [hbt2]; decide)]
      have hmem : b ∈ m.content.filter (keepBlock useIds resultIds) :=
        List.mem_filter.mpr ⟨hbm, hkb⟩
      rw [hpb0] at hmem
      exact absurd hmem (List.not_mem_nil b)
    simp [hpb, hpb0, htext]

/-- C9: pruning a history already within the window returns it unchanged, at
both message types, and pruning is idempotent. -/
theorem pruneMessages_noop (window : Nat) (messages : List MessageParam)
    (omessages : List OllamaMessage) :
    (messages.length ≤ window → pruneMessages window messages = messages) ∧
      (omessages.length ≤ window → pruneOllamaMessages window omessages = omessages) ∧
      pruneMessages window (pruneMessages window messages) =
        pruneMessages window messages :=
  ⟨fun h => pruneMessages_of_le h, fun h => pruneOllamaMessages_of_le h,
    pruneMessages_of_le (pruneMessages_length_le window messages)⟩

/-- C9 witness: concrete one-message histories within a window of 10 are
returned unchanged. -/
theorem pruneMessages_noop_witness :
    ([msgUserA] : List MessageParam).length ≤ 10 ∧
      pruneMessages 10 [msgUserA] = [msgUserA] ∧
      ([oMsgUser] : List OllamaMessage).length ≤ 10 ∧
      pruneOllamaMessages 10 [oMsgUser] = [oMsgUser] :=
  ⟨by decide, (pruneMessages_noop 10 [msgUserA] [oMsgUser]).1 (by decide), by decide,
    (pruneMessages_noop 10 [msgUserA] [oMsgUser]).2.1 (by decide)⟩

/-- C3: with the source constants (initialBackoff 1 s, maxBackoff 30 s,
maxRetries 5), a provider that always signals transient overload is attempted
exactly maxRetries + 1 = 6 times, the sleeps are 1, 2, 4, 8, 16 seconds —
totalling initialBackoff·(2^maxRetries − 1) = 31 s, each at most maxBackoff —
and the final outcome is the user-facing overloaded error; a provider whose
first call fails with a non-overload error has that error returned after a
single attempt with no sleep. -/
theorem runPromptRetry_spec :
    (runPromptRetry (fun _ => some "overloaded_error") =
        (maxRetries + 1, [1, 2, 4, 8, 16], .error overloadedUserError) ∧
      ([1, 2, 4, 8, 16] : List Nat).sum = initialBackoffSec * (2 ^ maxRetries - 1) ∧
      ∀ s ∈ ([1, 2, 4, 8, 16] : List Nat), s ≤ maxBackoffSec) ∧
    ∀ (e : String) (provider : Nat → Option String),
      provider 0 = some e → isOverloadedError e = false →
      runPromptRetry provider = (1, [], .error e) := by
  refine ⟨⟨by rfl, by decide, by decide⟩, ?_⟩
  intro e provider h0 hov
  show retryLoop provider 0 initialBackoffSec (5 + 1) = (1, [], .error e)
  rw [retryLoop, h0]
  simp [hov]

/-- C3 witness: a provider that fails with the non-overload error "boom". -/
theorem runPromptRetry_spec_witness :
    (fun _ => some "boom" : Nat → Option String) 0 = some "boom" ∧
      isOverloadedError "boom" = false ∧
      runPromptRetry (fun _ => some "boom") = (1, [], .error "boom") :=
  ⟨rfl, by decide, runPromptRetry_spec.2 "boom" (fun _ => some "boom") rfl (by decide)⟩

/-- C4: a tool call whose invocation returns an error does not abort or fail
the turn: an error tool_result referencing the call's id and carrying the
error message is appended to the history (inside the trailing user message),
and the loop recurses to the next model call. -/
theorem toolError_continues (clients : List String)
    (invoke : String → String → List (String × String) → ToolCallOutcome)
    (messages : List MessageParam) (assistantContent : List ContentBlock)
    (b : ContentBlock) (serverName toolName : String)
    (args : List (String × String)) (e : String)
    (hb : b ∈ assistantContent) (htype : b.type = "tool_use")
    (hsplit : goSplit b.name "__" = [serverName, toolName])
    (hclient : serverName ∈ clients)
    (hinput : b.input = RawJson.obj args)
    (hinv : invoke serverName toolName args = .callError e) :
    (runPromptStep clients invoke messages assistantContent).2 = true ∧
      ∃ m ∈ (runPromptStep clients invoke messages assistantContent).1,
        ∃ rb ∈ m.content, rb = toolErrorResult b.id toolName e := by
  have hdb : (dispatchBlock clients invoke b).2 = [toolErrorResult b.id toolName e] := by
    simp [dispatchBlock, htype, hsplit, hclient, hinput, hinv]
  have htr : toolErrorResult b.id toolName e ∈
      (dispatchBlocks clients invoke assistantContent).2 := by
    show toolErrorResult b.id toolName e ∈
      assistantContent.flatMap (fun x => (dispatchBlock clients invoke x).2)
    exact List.mem_flatMap.mpr ⟨b, hb, by rw [hdb]; exact List.mem_singleton.mpr rfl⟩
  have hpos : 0 < (dispatchBlocks clients invoke assistantContent).2.length :=
    List.length_pos.mpr (List.ne_nil_of_mem htr)
  simp only [runPromptStep]
  rw [if_pos hpos]
  refine ⟨rfl, ⟨"user", (dispatchBlocks clients invoke assistantContent).2⟩, ?_,
    toolErrorResult b.id toolName e, htr, rfl⟩
  simp

/-- C4 witness: a concrete history where the single tool call fails with
"boom". -/
theorem toolError_continues_witness :
    (runPromptStep ["srv"] invokeFail [] [goodToolUseBlock]).2 = true ∧
      ∃ m ∈ (runPromptStep ["srv"] invokeFail [] [goodToolUseBlock]).1,
        ∃ rb ∈ m.content, rb = toolErrorResult "id1" "tool" "boom" :=
  toolError_continues ["srv"] invokeFail [] [goodToolUseBlock] goodToolUseBlock
    "srv" "tool" [] "boom" (List.mem_singleton.mpr rfl) rfl rfl
    (List.mem_singleton.mpr rfl) rfl rfl

/-- C7: a tool_use block whose name does not split into exactly two parts
around "__", or which names a server absent from the client map, is reported
and skipped: no tool is invoked, no tool_result is collected for that call,
and the remaining blocks of the same message are processed as if the block
were absent (the turn is not aborted). -/
theorem malformedToolUse_skipped (clients : List String)
    (invoke : String → String → List (String × String) → ToolCallOutcome)
    (pre post : List ContentBlock) (b : ContentBlock)
    (htype : b.type = "tool_use")
    (hbad : (goSplit b.name "__").length ≠ 2 ∨
      ∀ serverName toolName, goSplit b.name "__" = [serverName, toolName] →
        serverName ∉ clients) :
    dispatchBlock clients invoke b = ([], []) ∧
      dispatchBlocks clients invoke (pre ++ b :: post) =
        dispatchBlocks clients invoke (pre ++ post) := by
  have hdb : dispatchBlock clients invoke b = ([], []) := by
    unfold dispatchBlock
    rw [if_pos htype]
    rcases hsp : goSplit b.name "__" with _ | ⟨s, _ | ⟨t, _ | ⟨u, rest⟩⟩⟩
    · rfl
    · rfl
    · have hnc : s ∉ clients := by
        rcases hbad with hlen | hno
        · rw [hsp] at hlen
          exact absurd rfl hlen
        · exact hno s t hsp
      simp [hnc]
    · rfl
  refine ⟨hdb, ?_⟩
  unfold dispatchBlocks
  simp [hdb]

/-- C7 witness: a tool_use block named without the "__" separator, between a
text block and a well-formed call. -/
theorem malformedToolUse_skipped_witness :
    dispatchBlock ["srv"] invokeOk (toolUseBlock "x" "noseparator" (.obj [])) = ([], []) ∧
      dispatchBlocks ["srv"] invokeOk
          ([textBlock "hi"] ++ toolUseBlock "x" "noseparator" (.obj []) :: [goodToolUseBlock]) =
        dispatchBlocks ["srv"] invokeOk ([textBlock "hi"] ++ [goodToolUseBlock]) :=
  malformedToolUse_skipped ["srv"] invokeOk [textBlock "hi"] [goodToolUseBlock]
    (toolUseBlock "x" "noseparator" (.obj [])) rfl (.inl (by decide))

/-- C8, counterexample to the claim as stated: a tool_use block whose
arguments do not unmarshal into a JSON object is reported and skipped — no
tool_result referencing the call's id is appended to the history; the turn
step appends only the assistant message and does not recurse. -/
theorem badArgs_no_toolResult_cx :
    runPromptStep ["srv"] invokeOk [] [badArgsBlock] =
        ([⟨"assistant", [badArgsBlock]⟩], false) ∧
      ¬ ∃ m ∈ (runPromptStep ["srv"] invokeOk [] [badArgsBlock]).1,
          ∃ rb ∈ m.content, rb.type = "tool_result" ∧ rb.toolUseID = "id1" := by
  exact ⟨rfl, by decide⟩

/-- C8 (amended: an unmarshalable-arguments fault is reported and the call
skipped — no tool is invoked, no tool_result is appended for that call, and
the turn continues with the remaining calls). -/
theorem badArgs_skipped (clients : List String)
    (invoke : String → String → List (String × String) → ToolCallOutcome)
    (pre post : List ContentBlock) (b : ContentBlock) (raw : String)
    (htype : b.type = "tool_use") (hinput : b.input = RawJson.bad raw) :
    dispatchBlock clients invoke b = ([], []) ∧
      dispatchBlocks clients invoke (pre ++ b :: post) =
        dispatchBlocks clients invoke (pre ++ post) := by
  have hdb : dispatchBlock clients invoke b = ([], []) := by
    unfold dispatchBlock
    rw [if_pos htype]
    rcases hsp : goSplit b.name "__" with _ | ⟨s, _ | ⟨t, _ | ⟨u, rest⟩⟩⟩
    · rfl
    · rfl
    · by_cases hc : s ∈ clients
      · simp [hc, hinput]
      · simp [hc]
    · rfl
  refine ⟨hdb, ?_⟩
  unfold dispatchBlocks
  simp [hdb]

/-- C8 witness for the amended claim: the concrete bad-arguments block
between a text block and a well-formed call. -/
theorem badArgs_skipped_witness :
    dispatchBlock ["srv"] invokeOk badArgsBlock = ([], []) ∧
      dispatchBlocks ["srv"] invokeOk
          ([textBlock "hi"] ++ badArgsBlock :: [goodToolUseBlock]) =
        dispatchBlocks ["srv"] invokeOk ([textBlock "hi"] ++ [goodToolUseBlock]) :=
  badArgs_skipped ["srv"] invokeOk [textBlock "hi"] [goodToolUseBlock]
    badArgsBlock "not json" rfl rfl

/-- C6, counterexample to the claim as stated: the code prunes the history
before the new prompt is appended, so the message list passed to the first
provider call of a turn can hold window + 1 messages — here 11 > 10. -/
theorem turnProviderMessages_cx :
    ¬ ((turnProviderMessages 10 (List.replicate 11 msgUserA) "B").length ≤ 10) := by
  decide

/-- C6 (amended: in the main loop a nonempty history is pruned first and the
user prompt appended afterwards, so the first provider call of a turn sees at
most window + 1 messages, the appended prompt being the last; recursive
tool-result continuations call the provider without further pruning). -/
theorem turnProviderMessages_bound (window : Nat) (history : List MessageParam)
    (prompt : String) :
    (turnProviderMessages window history prompt).length ≤ window + 1 ∧
      (turnProviderMessages window history prompt).getLast? =
        some ⟨"user", [textBlock prompt]⟩ := by
  constructor
  · unfold turnProviderMessages
    rw [List.length_append]
    have hle : (if 0 < history.length then pruneMessages window history
        else history).length ≤ window := by
      split
      · exact pruneMessages_length_le window history
      · omega
    simp only [List.length_singleton]
    omega
  · unfold turnProviderMessages
    exact List.getLast?_concat _

/-! ## Ollama branch versus the adjacent-pair rule -/

theorem ollamaPruneLoop_cons (prev : Option OllamaMessage) (m : OllamaMessage)
    (rest : List OllamaMessage) :
    ollamaPruneLoop prev (m :: rest) =
      if 0 < m.toolCalls.length then
        match rest with
        | next :: _ =>
          if next.role = "tool" then m :: next :: ollamaPruneLoop (some m) rest
          else ollamaPruneLoop (some m) rest
        | [] => ollamaPruneLoop (some m) rest
      else if m.role = "tool" then ollamaPruneLoop (some m) rest
      else m :: ollamaPruneLoop (some m) rest := by
  rcases prev with _ | p
  · rfl
  · rw [ollamaPruneLoop.eq_def]
    by_cases hp : 0 < p.toolCalls.length <;> simp [hp]

theorem ollamaAdjacentRule_cons (prev : Option OllamaMessage) (m : OllamaMessage)
    (rest : List OllamaMessage) :
    ollamaAdjacentRule prev (m :: rest) =
      (if ollamaAdjacentKeep prev m rest.head? then [m] else []) ++
        ollamaAdjacentRule (some m) rest := by
  rw [ollamaAdjacentRule]

/-- Main equivalence between the Ollama branch loop and whole-message
filtering by the adjacent-pair rule, for histories in which no "tool"-role
message itself bears tool calls. The side condition on `prev` states that a
preceding tool-call-bearing message is never followed by a "tool"-role head
(in that configuration the loop would already have emitted the head as the
partner of `prev`, while the rule emits it at its own position). -/
theorem ollamaLoop_eq_rule (n : Nat) :
    ∀ (msgs : List OllamaMessage), msgs.length ≤ n →
      (∀ m ∈ msgs, m.role = "tool" → m.toolCalls = []) →
      ∀ prev : Option OllamaMessage,
        (∀ p, prev = some p → 0 < p.toolCalls.length →
          ∀ m0, msgs.head? = some m0 → ¬ m0.role = "tool") →
        ollamaPruneLoop prev msgs = ollamaAdjacentRule prev msgs := by
  induction n with
  | zero =>
    intro msgs hlen _ prev _
    have hnil : msgs = [] := List.length_eq_zero.mp (Nat.le_zero.mp hlen)
    subst hnil
    rfl
  | succ n ih =>
    intro msgs hlen hwf prev hprev
    rcases msgs with _ | ⟨m, rest⟩
    · rfl
    · rw [ollamaPruneLoop_cons, ollamaAdjacentRule_cons]
      by_cases htc : 0 < m.toolCalls.length
      · rcases rest with _ | ⟨next, rest2⟩
        · rw [if_pos htc]
          rw [if_neg (show ¬ ollamaAdjacentKeep prev m (List.head? []) = true by
            simp [ollamaAdjacentKeep, htc, List.head?])]
          simp [ollamaPruneLoop, ollamaAdjacentRule]
        · by_cases hnext : next.role = "tool"
          · have hntc : next.toolCalls = [] := hwf next (by simp) hnext
            rw [if_pos htc]
            rw [if_pos (show ollamaAdjacentKeep prev m ((next :: rest2).head?) = true by
              simp [ollamaAdjacentKeep, htc, List.head?, hnext])]
            dsimp only
            rw [if_pos hnext]
            have hinner : ollamaPruneLoop (some m) (next :: rest2) =
                ollamaPruneLoop (some next) rest2 := by
              rw [ollamaPruneLoop_cons]
              rw [if_neg (by rw [hntc]; simp), if_pos hnext]
            have hinner2 : ollamaAdjacentRule (some m) (next :: rest2) =
                next :: ollamaAdjacentRule (some next) rest2 := by
              rw [ollamaAdjacentRule_cons]
              rw [if_pos (show ollamaAdjacentKeep (some m) next rest2.head? = true by
                simp [ollamaAdjacentKeep, hntc, hnext, htc])]
              rfl
            rw [hinner, hinner2]
            have hrec : ollamaPruneLoop (some next) rest2 =
                ollamaAdjacentRule (some next) rest2 := by
              refine ih rest2 (by simp at hlen; omega)
                (fun x hx hxr => hwf x (by simp [hx]) hxr) (some next) ?_
              intro p hp hptc
              injection hp with hpe
              rw [← hpe, hntc] at hptc
              exact absurd hptc (by simp)
            rw [hrec]
            simp
          · rw [if_pos htc]
            rw [if_neg (show ¬ ollamaAdjacentKeep prev m ((next :: rest2).head?) = true by
              simp [ollamaAdjacentKeep, htc, List.head?, hnext])]
            dsimp only
            rw [if_neg hnext, List.nil_append]
            refine ih (next :: rest2) (by simp at hlen ⊢; omega)
              (fun x hx hxr => hwf x (by simp [hx]) hxr) (some m) ?_
            intro p hp hptc m0 hm0
            simp only [List.head?] at hm0
            injection hm0 with hme
            rw [← hme]
            exact hnext
      · rw [if_neg htc]
        by_cases hrole : m.role = "tool"
        · rw [if_pos hrole]
          have hmtc : m.toolCalls = [] := hwf m (by simp) hrole
          have hkeep : ollamaAdjacentKeep prev m rest.head? = false := by
            unfold ollamaAdjacentKeep
            rw [if_neg htc, if_pos hrole]
            rcases hpv : prev with _ | p
            · rfl
            · have hpz : ¬ 0 < p.toolCalls.length := by
                intro hptc
                exact absurd hrole (hprev p hpv hptc m (by rw [List.head?]))
              simp [hpz]
          rw [if_neg (by simp [hkeep]), List.nil_append]
          refine ih rest (by simp at hlen; omega)
            (fun x hx hxr => hwf x (by simp [hx]) hxr) (some m) ?_
          intro p hp hptc
          injection hp with hpe
          rw [← hpe, hmtc] at hptc
          exact absurd hptc (by simp)
        · rw [if_neg hrole]
          rw [if_pos (show ollamaAdjacentKeep prev m rest.head? = true by
            unfold ollamaAdjacentKeep
            rw [if_neg htc, if_neg hrole])]
          have hrec : ollamaPruneLoop (some m) rest = ollamaAdjacentRule (some m) rest := by
            refine ih rest (by simp at hlen; omega)
              (fun x hx hxr => hwf x (by simp [hx]) hxr) (some m) ?_
            intro p hp hptc
            injection hp with hpe
            rw [← hpe] at hptc
            exact absurd hptc htc
          rw [hrec]
          simp

/-- C10, counterexample to the claim as stated: on a retained suffix holding
a "tool"-role message that itself bears a tool call, the branch emits that
message twice — once as the adjacent partner of the preceding tool-call
message and once as the head of its own pair — instead of deciding each
message once by the stated adjacency rule, under which the output would be a
duplicate-free sublist. -/
theorem ollamaPrune_adjacency_cx :
    pruneOllamaMessages 3 [oMsgUser, oMsgCaller, oMsgToolWithCalls, oMsgToolPlain] =
        [oMsgCaller, oMsgToolWithCalls, oMsgToolWithCalls, oMsgToolPlain] ∧
      ollamaAdjacentRule none [oMsgCaller, oMsgToolWithCalls, oMsgToolPlain] =
        [oMsgCaller, oMsgToolWithCalls, oMsgToolPlain] ∧
      ([oMsgCaller, oMsgToolWithCalls, oMsgToolWithCalls, oMsgToolPlain] :
          List OllamaMessage) ≠
        [oMsgCaller, oMsgToolWithCalls, oMsgToolPlain] :=
  ⟨rfl, rfl, by decide⟩

/-- C10 (amended: provided no message both has role "tool" and bears tool
calls — on such exotic input the branch duplicates the message — the Ollama
branch of pruneMessages decides pairing purely by adjacency and drops whole
messages: a tool-call-bearing message is kept exactly when the immediately
following message of the retained suffix has role "tool", in which case both
are kept together; a tool-call message without such a successor and every
"tool"-role message not retained as an adjacent partner are dropped
entirely; all other messages are kept). -/
theorem pruneOllama_adjacency (window : Nat) (messages : List OllamaMessage)
    (hwf : ∀ m ∈ messages, m.role = "tool" → m.toolCalls = []) :
    pruneOllamaMessages window messages =
      if messages.length ≤ window then messages
      else ollamaAdjacentRule none (messages.drop (messages.length - window)) := by
  unfold pruneOllamaMessages
  split
  · rfl
  · exact ollamaLoop_eq_rule (messages.drop (messages.length - window)).length
      (messages.drop (messages.length - window)) le_rfl
      (fun m hm => hwf m (List.mem_of_mem_drop hm)) none
      (fun p hp => Option.noConfusion hp)

/-- C10 witness: a concrete over-window history with a well-formed
tool-call/tool-response pair. -/
theorem pruneOllama_adjacency_witness :
    (∀ m ∈ ([oMsgUser, oMsgCaller, oMsgToolPlain, oMsgUser] : List OllamaMessage),
        m.role = "tool" → m.toolCalls = []) ∧
      pruneOllamaMessages 3 [oMsgUser, oMsgCaller, oMsgToolPlain, oMsgUser] =
        (if ([oMsgUser, oMsgCaller, oMsgToolPlain, oMsgUser] :
            List OllamaMessage).length ≤ 3
         then [oMsgUser, oMsgCaller, oMsgToolPlain, oMsgUser]
         else ollamaAdjacentRule none
           (([oMsgUser, oMsgCaller, oMsgToolPlain, oMsgUser] : List OllamaMessage).drop
             (([oMsgUser, oMsgCaller, oMsgToolPlain, oMsgUser] :
                List OllamaMessage).length - 3))) :=
  ⟨by decide, pruneOllama_adjacency 3 [oMsgUser, oMsgCaller, oMsgToolPlain, oMsgUser]
    (by decide)⟩

end Mcphost
